import Mathlib

set_option maxRecDepth 4000

namespace Mango

/-!
Shallow embedding of the message routing and delivery subsystem of the mango
agent framework: `MQTTContainer` (mango/container/mqtt.py) and `Agent`
(mango/core/agent.py).  Python dictionaries are modelled as association lists
(first occurrence of a key is authoritative, insertion order preserved, as for
Python dicts), Python sets of agent ids as duplicate-free lists, and the
`asyncio` callback/await structure as explicit step relations or event traces.
-/

/-- Association-list lookup, modelling Python `d[k]` / `d.get(k)`:
the first entry with the key wins. -/
def assocGet {α : Type} : List (String × α) → String → Option α
  | [], _ => none
  | p :: rest, k => if p.1 = k then some p.2 else assocGet rest k

/-- Association-list write, modelling Python `d[k] = v`: replaces the first
entry carrying the key in place, otherwise appends (Python dicts keep the
position of an existing key and append new keys). -/
def assocSet {α : Type} : List (String × α) → String → α → List (String × α)
  | [], k, v => [(k, v)]
  | p :: rest, k, v => if p.1 = k then (k, v) :: rest else p :: assocSet rest k v

/-- Set-style insertion into a duplicate-free list, modelling `s.add(x)` on a
Python set (iteration order in the model: insertion order). -/
def setAdd (l : List String) (a : String) : List String :=
  if a ∈ l then l else l ++ [a]

/-- Values stored in Python metadata dictionaries. -/
inductive MetaV where
  | s (v : String)
  | n (v : Nat)
  | b (v : Bool)
deriving DecidableEq, Repr

/-- A metadata dictionary such as the `meta` records built by the container. -/
abbrev Meta := List (String × MetaV)

def dictGet (m : Meta) (k : String) : Option MetaV := assocGet m k

def dictSet (m : Meta) (k : String) (v : MetaV) : Meta := assocSet m k v

/-- Python `d1.update(d2)`: every entry of `d2` is written into `d1`. -/
def dictUpdate (m other : Meta) : Meta := other.foldl (fun acc p => dictSet acc p.1 p.2) m

/-- Python truthiness of a metadata value. -/
def MetaV.truthy : MetaV → Bool
  | .s v => v ≠ ""
  | .n v => v ≠ 0
  | .b v => v

/-- Python truthiness of an `Optional[str]`: `None` and `""` are falsy. -/
def pyTruthyStrOpt : Option String → Bool
  | none => false
  | some s => s ≠ ""

/-- Message values flowing through the container.  `acl content metaFields`
models an `ACLMessage`: it supports `split_content_and_meta` and
`extract_meta`; the other constructors model plain decoded objects that
support neither. -/
inductive MVal where
  | natV (v : Nat)
  | strV (v : String)
  | acl (content : MVal) (metaFields : Meta)
deriving DecidableEq, Repr

/-- Models the `hasattr(msg, "split_content_and_meta")` duck-typed check
followed by `content, msg_meta = msg.split_content_and_meta();
meta.update(msg_meta)`: envelope (ACL) values are split and their fields
merged into `meta`; other values pass through unchanged. -/
def splitIfAble (m : MVal) (meta : Meta) : MVal × Meta :=
  match m with
  | .acl c mf => (c, dictUpdate meta mf)
  | v => (v, meta)

/-- Splits a character list into slash-separated segments (accumulator holds
the current segment reversed). -/
def segsAux : List Char → List Char → List String
  | [], acc => [String.mk acc.reverse]
  | c :: cs, acc => if c = '/' then String.mk acc.reverse :: segsAux cs [] else segsAux cs (c :: acc)

def splitSegs (s : String) : List String := segsAux s.toList []

/-- Segment-wise MQTT wildcard matching: a lone trailing multi-level wildcard
matches any remaining suffix, a single-level wildcard matches exactly one
segment. -/
def segMatch : List String → List String → Bool
  | ["#"], _ => true
  | [], [] => true
  | [], _ :: _ => false
  | _ :: _, [] => false
  | s :: ss, t :: ts => (s = "+" || s = t) && segMatch ss ts

/-- Modelled from the spec: `paho.mqtt.client.topic_matches_sub`, the external
broker client's wildcard matcher used by the container (spec section 6: topics
are a slash-separated hierarchy, a single-level wildcard matches exactly one
segment, a multi-level wildcard matches the remaining suffix). -/
def topic_matches_sub (pat topic : String) : Bool :=
  segMatch (splitSegs pat) (splitSegs topic)

/-- An entry of an inbox / intake queue: `(priority, content, meta)`. -/
abbrev InboxItem := Nat × MVal × Meta

instance : DecidableEq InboxItem := inferInstance

instance : DecidableEq (List InboxItem) := inferInstance

instance : DecidableEq (String × List InboxItem) := inferInstance

/-- A Python class object bound to a topic in `subscriptions_to_class`.
`aclClass` stands for `ACLMessage` (or a subclass of it); `otherClass` for any
class whose instances are not `ACLMessage`s. -/
inductive ClassV where
  | aclClass
  | otherClass
deriving DecidableEq, Repr

def ClassV.isACL : ClassV → Bool
  | .aclClass => true
  | .otherClass => false

/-- Calls issued against the external broker client (`self.mqtt_client`). -/
inductive BrokerCall where
  | subscribe (topic : String) (qos : Nat)
  | unsubscribe (topic : String)
  | publish (topic : String) (payload : List Nat)
deriving DecidableEq, Repr

/-- State of an `MQTTContainer`.  `addr` models both `self.addr` and
`self.inbox_topic`, which the constructor initializes to the same value and
never mutates.  `agents` models `self._agents` together with each registered
agent's inbox queue.  `inbox` is the container's own intake queue
(`self.inbox`, from the core container). -/
structure Container where
  addr : Option String
  agents : List (String × List InboxItem)
  additional_subscriptions : List (String × List String)
  subscriptions_to_class : List (String × ClassV)
  inbox : List InboxItem
deriving DecidableEq, Repr

/-- Embeds `MQTTContainer.subscribe_for_agent`.  `brokerAccepts` stands for
`self.mqtt_client.subscribe` returning `MQTT_ERR_SUCCESS`.  This sequential
embedding lets the `await self.pending_sub_request` complete via the broker's
acknowledgement (`on_sub`); the step machine `SubMachine` below models the
future/acknowledgement interleaving explicitly.  The result carries the new
container state, the broker calls issued, and the returned boolean; `.error`
models the raised `ValueError` for an unknown agent id. -/
def subscribe_for_agent (c : Container) (aid topic : String) (qos : Nat)
    (expected_class : Option ClassV) (brokerAccepts : Bool) :
    Except String (Container × List BrokerCall × Bool) :=
  if (assocGet c.agents aid).isNone then .error "Given aid is not known"
  else
    let c1 := match expected_class with
      | some cl => { c with subscriptions_to_class := assocSet c.subscriptions_to_class topic cl }
      | none => c
    match assocGet c1.additional_subscriptions topic with
    | some aids =>
        .ok ({ c1 with additional_subscriptions := assocSet c1.additional_subscriptions topic (setAdd aids aid) },
             [], true)
    | none =>
        let c2 := { c1 with additional_subscriptions := assocSet c1.additional_subscriptions topic [aid] }
        if brokerAccepts then .ok (c2, [BrokerCall.subscribe topic qos], true)
        else .ok (c2, [BrokerCall.subscribe topic qos], false)

/-- Embeds `MQTTContainer.deregister_agent`.  The `super().deregister_agent(aid)`
step is modelled from the spec: core.Container.deregister_agent is not among
the analysed sources; per spec section 4.5 it removes the agent from the
registry.  The rest mirrors the source: remove the aid from every
subscription's set, then pop every subscription whose set became empty and
issue one broker `unsubscribe` for it (dict iteration order = insertion
order). -/
def deregister_agent (c : Container) (aid : String) : Container × List BrokerCall :=
  let updated := c.additional_subscriptions.map (fun p => (p.1, p.2.filter (fun x => x ≠ aid)))
  let emptied := (updated.filter (fun p => p.2 = [])).map Prod.fst
  ({ c with agents := c.agents.filter (fun p => p.1 ≠ aid),
            additional_subscriptions := updated.filter (fun p => p.2 ≠ []) },
   emptied.map BrokerCall.unsubscribe)

/-- The recipient-resolution loop of `MQTTContainer._handle_msg`: the union
(as a Python set, modelled as a duplicate-free list in first-insertion order)
of the agent-id sets of every additional subscription whose pattern matches
the topic. -/
def resolve_recipients (c : Container) (topic : String) : List String :=
  c.additional_subscriptions.foldl
    (fun acc p => if topic_matches_sub p.1 topic then p.2.foldl setAdd acc else acc) []

/-- Appends an item to the inbox of the agent registered under `aid`
(`self._agents[aid].inbox.put(...)`). -/
def putInbox (c : Container) (aid : String) (it : InboxItem) : Container :=
  { c with agents := c.agents.map (fun p => if p.1 = aid then (p.1, p.2 ++ [it]) else p) }

/-- Outcome of `MQTTContainer._handle_msg`: delivery into one or more agent
inboxes, a logged warning with the message dropped, or a raised error
(`KeyError` on a missing key or an unregistered receiver, `TypeError` when the
topic metadata is not a string). -/
inductive HandleRes where
  | delivered (c : Container)
  | droppedWarn (c : Container)
  | err
deriving DecidableEq, Repr

/-- Embeds `MQTTContainer._handle_msg`.  The local `topic` is read from `meta`
before the envelope split (so a `topic` key inside the envelope metadata does
not affect routing).  The inbox-topic comparison is Python `==` against
`self.inbox_topic` (an `Optional[str]`).  The unregistered-receiver `KeyError`
in the fan-out loop is modelled as `.err` without partial delivery (the Python
set iteration order, and hence the partially updated state, is
nondeterministic). -/
def handle_msg (c : Container) (priority : Nat) (msgContent : MVal) (meta : Meta) : HandleRes :=
  match dictGet meta "topic" with
  | some (MetaV.s t) =>
    let cm := splitIfAble msgContent meta
    if (match c.addr with | some a => decide (t = a) | none => false) then
      match dictGet cm.2 "receiver_id" with
      | some (MetaV.s rid) =>
        if rid ≠ "" ∧ (assocGet c.agents rid).isSome then
          .delivered (putInbox c rid (priority, cm.1, cm.2))
        else .droppedWarn c
      | _ => .droppedWarn c
    else
      let receivers := resolve_recipients c t
      if receivers = [] then .droppedWarn c
      else if receivers.all (fun r => (assocGet c.agents r).isSome) then
        .delivered (receivers.foldl (fun acc r => putInbox acc r (priority, cm.1, cm.2)) c)
      else .err
  | _ => .err

/-- The class-binding lookup inside `MQTTContainer.decode_mqtt_msg`: the first
entry of `subscriptions_to_class` (dict insertion order) whose pattern matches
the topic. -/
def firstMatchingClass (l : List (String × ClassV)) (topic : String) : Option ClassV :=
  (l.find? (fun p => topic_matches_sub p.1 topic)).map Prod.snd

/-- Embeds `MQTTContainer.decode_mqtt_msg`.  `decode` stands for
`self.codec.decode`; a `none` decode result models the codec returning `None`.
The source instantiates the first matching bound class and tests
`isinstance(content, ACLMessage)`: only then is `meta` set to
`decoded.extract_meta()` (and the local `content` rebound to
`decoded.content`, a value the function then discards — it returns `decoded`).
When the instantiated class is an `ACLMessage` but the decoded value does not
support `extract_meta` (it is not an envelope), the attribute access raises;
that is the outer `none`. -/
def decode_mqtt_msg (c : Container) (decode : List Nat → Option MVal)
    (topic : String) (payload : List Nat) : Option (Option MVal × Meta) :=
  let cls := firstMatchingClass c.subscriptions_to_class topic
  let decoded := decode payload
  if (cls.map ClassV.isACL).getD false then
    match decoded with
    | some (MVal.acl cnt mf) => some (some (MVal.acl cnt mf), mf)
    | _ => none
  else
    some (decoded, [])

/-- Embeds the `on_msg` broker callback set in
`MQTTContainer._set_mqtt_callbacks`: builds the base metadata record, decodes
the payload, merges the decoded metadata, and enqueues `(0, content, meta)`
into the container's intake queue via `loop.call_soon_threadsafe` if and only
if the decoded content is not `None`.  The outer `none` models an exception
escaping `decode_mqtt_msg`. -/
def on_msg (c : Container) (decode : List Nat → Option MVal)
    (topic : String) (qos : Nat) (retain : Bool) (payload : List Nat) : Option Container :=
  let meta : Meta := [("network_protocol", MetaV.s "mqtt"), ("topic", MetaV.s topic),
                      ("qos", MetaV.n qos), ("retain", MetaV.b retain)]
  match decode_mqtt_msg c decode topic payload with
  | none => none
  | some (msgContent, msgMeta) =>
    let meta := dictUpdate meta msgMeta
    match msgContent with
    | none => some c
    | some mc => some { c with inbox := c.inbox ++ [(0, mc, meta)] }

/-- Modelled from the spec: `Container._create_acl` (core container, not among
the analysed sources) wraps the content in an ACL envelope carrying the
addressing metadata (spec section 4.1: envelope fields such as sender,
receiver, conversation id). -/
def _create_acl (content : MVal) (receiver_addr : String) (receiver_id : Option String)
    (acl_metadata : Option Meta) : MVal :=
  MVal.acl content
    (dictUpdate (acl_metadata.getD [])
      (match receiver_id with
       | some r => [("receiver_addr", MetaV.s receiver_addr), ("receiver_id", MetaV.s r)]
       | none => [("receiver_addr", MetaV.s receiver_addr)]))

/-- The message actually sent by `MQTTContainer.send_message`: the content
itself, or (deprecated path) an ACL envelope around it when `create_acl` is
truthy. -/
def send_payload (content : MVal) (receiver_addr : String) (receiver_id : Option String)
    (create_acl : Option Bool) (acl_metadata : Option Meta) : MVal :=
  if create_acl.getD false then _create_acl content receiver_addr receiver_id acl_metadata
  else content

/-- The metadata record built on the local short-circuit path of
`MQTTContainer.send_message` (dict literal order preserved). -/
def self_meta (a : String) (actual : Meta) : Meta :=
  [("topic", MetaV.s a), ("qos", (dictGet actual "qos").getD (MetaV.n 0)),
   ("retain", MetaV.b false), ("network_protocol", MetaV.s "mqtt")]

/-- Embeds `MQTTContainer.send_message` (with `_send_external_message`
inlined as the emitted `publish` broker call on `self.codec.encode(message)`).
The `**kwargs` parameter is always a dict in Python, never `None`, so the line
`actual_mqtt_kwargs = mqtt_kwargs if kwargs is None else kwargs` is embedded
with `some kwargs` on the right of the `is None` test.  Returns the new
container state (the intake queue grows on the short-circuit path), the broker
calls issued, and the returned boolean. -/
def send_message (c : Container) (encode : MVal → List Nat) (content : MVal)
    (receiver_addr : String) (receiver_id : Option String) (create_acl : Option Bool)
    (acl_metadata : Option Meta) (mqtt_kwargs : Option Meta) (kwargs : Meta) :
    Container × List BrokerCall × Bool :=
  let message := send_payload content receiver_addr receiver_id create_acl acl_metadata
  let kwargsOpt : Option Meta := some kwargs
  let actual := if kwargsOpt.isNone then mqtt_kwargs else kwargsOpt
  let actual := actual.getD []
  if pyTruthyStrOpt c.addr && decide (some receiver_addr = c.addr)
      && !((dictGet actual "retain").getD (MetaV.b false)).truthy then
    let cm := splitIfAble message (self_meta (c.addr.getD "") actual)
    ({ c with inbox := c.inbox ++ [(0, cm.1, cm.2)] }, [], true)
  else
    (c, [BrokerCall.publish receiver_addr (encode message)], true)

/-- Sequential composition of `subscribe_for_agent` calls for one topic by a
list of agents (each call with no expected class and an accepting broker);
collects all broker calls and the returned booleans. -/
def subscribe_run (P : String) (qos : Nat) :
    Container → List String → Option (Container × List BrokerCall × List Bool)
  | c, [] => some (c, [], [])
  | c, a :: rest =>
    match subscribe_for_agent c a P qos none true with
    | .error _ => none
    | .ok (c1, calls, ret) =>
      match subscribe_run P qos c1 rest with
      | none => none
      | some (c2, cs, rets) => some (c2, calls ++ cs, ret :: rets)

/-- Sequential composition of `deregister_agent` calls, keeping the broker
calls of each step separately. -/
def deregister_run : Container → List String → Container × List (List BrokerCall)
  | c, [] => (c, [])
  | c, a :: rest =>
    let r := deregister_agent c a
    let r2 := deregister_run r.1 rest
    (r2.1, r.2 :: r2.2)

/-- The entries of `additional_subscriptions` carrying a given key. -/
def subEntries (c : Container) (P : String) : List (String × List String) :=
  c.additional_subscriptions.filter (fun p => p.1 = P)

end Mango

namespace Mango.AgentModel

/-- Outcome of the consumer loop `Agent._check_inbox` on a finite inbox
history: either all messages were handled and the loop is suspended waiting
for the next one, or a handler raised and the loop task finished with that
exception. -/
inductive LoopEnd where
  | waiting
  | fault (e : Nat)
deriving DecidableEq, Repr

/-- A user message handler (`Agent.handle_msg`): either returns or raises an
exception, identified by a code. -/
abbrev Handler := MVal → Meta → Except Nat Unit

/-- Embeds `Agent._check_inbox` run over a finite inbox history: dequeues in
FIFO order, writes the priority into the metadata, and calls the handler; an
escaping exception ends the loop task with that exception.  Returns the
successfully handled prefix and the loop outcome. -/
def check_inbox (h : Handler) : List InboxItem → List InboxItem × LoopEnd
  | [] => ([], .waiting)
  | (p, cnt, m) :: rest =>
    match h cnt (dictSet m "priority" (MetaV.n p)) with
    | .error e => ([], .fault e)
    | .ok _ =>
      let r := check_inbox h rest
      ((p, cnt, m) :: r.1, r.2)

/-- Embeds `Agent.raise_exceptions`, the done-callback of the consumer-loop
task: if the task finished with an exception it is re-raised into the
surrounding runtime's fault channel (returned here); otherwise nothing
happens. -/
def raise_exceptions : LoopEnd → Option Nat
  | .fault e => some e
  | .waiting => none

/-- A whole system of agents: each runs its own consumer loop on its own
inbox, with its own handler; no shared state. -/
def system_run (handlers : String → Handler) (sys : List (String × List InboxItem)) :
    List (String × (List InboxItem × LoopEnd)) :=
  sys.map (fun p => (p.1, check_inbox (handlers p.1) p.2))

/-- State of the consumer-loop task `self._check_inbox_task` when
`Agent.shutdown` runs: still running (suspended in its infinite loop), or
already finished with a handler exception. -/
inductive TaskSt where
  | running
  | doneErr (e : Nat)
deriving DecidableEq, Repr

/-- Observable events of `Agent.shutdown`, in program order. -/
inductive Ev where
  | setStopped
  | deregister
  | removeDoneCb
  | cancelTask
  | schedulerStop
  | logDone
deriving DecidableEq, Repr

/-- Python exceptions relevant to the shutdown path. -/
inductive PyExc where
  | cancelledError
  | exc (e : Nat)
deriving DecidableEq, Repr

/-- The asyncio semantics of `await self._check_inbox_task` right after
`self._check_inbox_task.cancel()`: a task still running its infinite loop
(which never catches `CancelledError`) finishes cancelled, so the await raises
`CancelledError`; a task already finished with a handler exception re-raises
that exception.  The task can never finish normally: `_check_inbox` is an
infinite loop.  (`some exc` = the await raises; `none` would be a normal
return.) -/
def await_cancelled_task : TaskSt → Option PyExc
  | .running => some .cancelledError
  | .doneErr e => some (.exc e)

/-- Embeds `Agent.shutdown` as its event trace plus the exception escaping the
call, if any.  The `try` body runs `remove_done_callback`, `cancel()` and the
await; only when the await returns normally does control reach
`await self._scheduler.stop()`; `except asyncio.CancelledError: pass` swallows
a cancellation; the `finally` block logs. -/
def agent_shutdown (stoppedDone containerRunning : Bool) (task : TaskSt) :
    List Ev × Option Nat :=
  let evs := (if stoppedDone then [] else [Ev.setStopped])
    ++ (if containerRunning then [Ev.deregister] else [])
  let evs := evs ++ [Ev.removeDoneCb, Ev.cancelTask]
  match await_cancelled_task task with
  | none => (evs ++ [Ev.schedulerStop, Ev.logDone], none)
  | some PyExc.cancelledError => (evs ++ [Ev.logDone], none)
  | some (PyExc.exc e) => (evs ++ [Ev.logDone], some e)

end Mango.AgentModel

namespace Mango.SubMachine

/-- Program counter of one `subscribe_for_agent` coroutine for a new topic:
not yet started, suspended on `await self.pending_sub_request` (holding the
index of the future it awaits), or returned. -/
inductive PC where
  | start
  | awaiting (fid : Nat)
  | done
deriving DecidableEq, Repr

/-- Interleaving state of two concurrent `subscribe_for_agent` calls plus the
broker's `on_sub` acknowledgements: the keys of `additional_subscriptions`,
the `asyncio.Future` objects created so far (`true` = resolved), the future
currently stored in `self.pending_sub_request`, the number of accepted broker
subscribe calls whose acknowledgement is still to be delivered, and the two
coroutines' program counters. -/
structure St where
  subs : List String
  futures : List Bool
  pending : Option Nat
  acks : Nat
  pc1 : PC
  pc2 : PC
deriving DecidableEq, Repr

def init : St := ⟨[], [], none, 0, .start, .start⟩

/-- Number of pending-subscription futures created but not resolved. -/
def unresolvedCount (s : St) : Nat := (s.futures.filter (fun b => b = false)).length

/-- One interleaving step.  `start_new` runs the synchronous prefix of
`subscribe_for_agent` for a topic not yet subscribed — insert the topic,
create a fresh unresolved future, overwrite `pending_sub_request`, issue the
(accepted) broker subscribe — and suspends on the await; `start_old` is the
early return for an already-subscribed topic; `ack` is the `on_sub` callback
resolving whatever future `pending_sub_request` currently holds (resolving an
already-resolved future would raise `InvalidStateError`, so it is not a step);
`finish` resumes a coroutine whose awaited future has been resolved. -/
inductive Step (t1 t2 : String) : St → St → Prop where
  | start1_new (s : St) (h : s.pc1 = .start) (hn : t1 ∉ s.subs) :
      Step t1 t2 s { s with subs := s.subs ++ [t1], futures := s.futures ++ [false],
                            pending := some s.futures.length, acks := s.acks + 1,
                            pc1 := .awaiting s.futures.length }
  | start1_old (s : St) (h : s.pc1 = .start) (ho : t1 ∈ s.subs) :
      Step t1 t2 s { s with pc1 := .done }
  | start2_new (s : St) (h : s.pc2 = .start) (hn : t2 ∉ s.subs) :
      Step t1 t2 s { s with subs := s.subs ++ [t2], futures := s.futures ++ [false],
                            pending := some s.futures.length, acks := s.acks + 1,
                            pc2 := .awaiting s.futures.length }
  | start2_old (s : St) (h : s.pc2 = .start) (ho : t2 ∈ s.subs) :
      Step t1 t2 s { s with pc2 := .done }
  | ack (s : St) (f : Nat) (hp : s.pending = some f) (hf : s.futures.get? f = some false)
      (ha : 0 < s.acks) :
      Step t1 t2 s { s with futures := s.futures.set f true, acks := s.acks - 1 }
  | finish1 (s : St) (f : Nat) (h : s.pc1 = .awaiting f) (hf : s.futures.get? f = some true) :
      Step t1 t2 s { s with pc1 := .done }
  | finish2 (s : St) (f : Nat) (h : s.pc2 = .awaiting f) (hf : s.futures.get? f = some true) :
      Step t1 t2 s { s with pc2 := .done }

/-- Reachability for the unconstrained interleaving. -/
def Reachable (t1 t2 : String) (s s' : St) : Prop := Relation.ReflTransGen (Step t1 t2) s s'

/-- All futures created so far are resolved (no pending subscription is
outstanding). -/
def allResolved (s : St) : Prop := ∀ b ∈ s.futures, b = true

/-- The serialized protocol the specification demands: identical to `Step`
except that a new-topic subscribe may only start while no unresolved
pending-subscription future exists. -/
inductive SStep (t1 t2 : String) : St → St → Prop where
  | start1_new (s : St) (h : s.pc1 = .start) (hn : t1 ∉ s.subs) (hser : allResolved s) :
      SStep t1 t2 s { s with subs := s.subs ++ [t1], futures := s.futures ++ [false],
                             pending := some s.futures.length, acks := s.acks + 1,
                             pc1 := .awaiting s.futures.length }
  | start1_old (s : St) (h : s.pc1 = .start) (ho : t1 ∈ s.subs) :
      SStep t1 t2 s { s with pc1 := .done }
  | start2_new (s : St) (h : s.pc2 = .start) (hn : t2 ∉ s.subs) (hser : allResolved s) :
      SStep t1 t2 s { s with subs := s.subs ++ [t2], futures := s.futures ++ [false],
                             pending := some s.futures.length, acks := s.acks + 1,
                             pc2 := .awaiting s.futures.length }
  | start2_old (s : St) (h : s.pc2 = .start) (ho : t2 ∈ s.subs) :
      SStep t1 t2 s { s with pc2 := .done }
  | ack (s : St) (f : Nat) (hp : s.pending = some f) (hf : s.futures.get? f = some false)
      (ha : 0 < s.acks) :
      SStep t1 t2 s { s with futures := s.futures.set f true, acks := s.acks - 1 }
  | finish1 (s : St) (f : Nat) (h : s.pc1 = .awaiting f) (hf : s.futures.get? f = some true) :
      SStep t1 t2 s { s with pc1 := .done }
  | finish2 (s : St) (f : Nat) (h : s.pc2 = .awaiting f) (hf : s.futures.get? f = some true) :
      SStep t1 t2 s { s with pc2 := .done }

/-- Reachability for the serialized protocol. -/
def SReachable (t1 t2 : String) (s s' : St) : Prop := Relation.ReflTransGen (SStep t1 t2) s s'

/-- The state reached after both coroutines started a new-topic subscribe
concurrently: two unresolved futures, `pending_sub_request` holding only the
second. -/
def badState : St :=
  ⟨["t1", "t2"], [false, false], some 1, 2, .awaiting 0, .awaiting 1⟩

end Mango.SubMachine

namespace Mango

/-! Association-list lemmas. -/

theorem assocGet_assocSet_self {α : Type} (l : List (String × α)) (k : String) (v : α) :
    assocGet (assocSet l k v) k = some v := by
  induction l with
  | nil => simp [assocSet, assocGet]
  | cons p rest ih =>
    by_cases h : p.1 = k
    · simp [assocSet, assocGet, h]
    · simp [assocSet, assocGet, h, ih]

theorem assocGet_assocSet_ne {α : Type} (l : List (String × α)) (k k' : String) (v : α)
    (h : k' ≠ k) : assocGet (assocSet l k v) k' = assocGet l k' := by
  induction l with
  | nil => simp [assocSet, assocGet, Ne.symm h]
  | cons p rest ih =>
    by_cases hp : p.1 = k
    · simp [assocSet, assocGet, hp, Ne.symm h]
    · simp [assocSet, assocGet, hp, ih]

theorem assocGet_map_snd {α β : Type} (g : String → α → β) (l : List (String × α)) (k : String) :
    assocGet (l.map (fun p => (p.1, g p.1 p.2))) k = (assocGet l k).map (g k) := by
  induction l with
  | nil => simp [assocGet]
  | cons p rest ih =>
    by_cases h : p.1 = k
    · subst h; simp [assocGet, ih]
    · simp [assocGet, h, ih]

/-- Claim C5.  In `Agent.shutdown`, awaiting the just-cancelled consumer-loop
task always raises (CancelledError for a task still running, the handler
exception for a task that already failed), so control never reaches
`await self._scheduler.stop()`: no shutdown trace contains the scheduler-stop
event, although the claim says every shutdown call invokes `Scheduler.stop()`
after the consumer loop terminates.  The second conjunct evaluates the model
at the failing input (a normally running agent). -/
theorem C5_scheduler_stop_never_invoked :
    (∀ (stoppedDone containerRunning : Bool) (task : AgentModel.TaskSt),
      AgentModel.Ev.schedulerStop ∉ (AgentModel.agent_shutdown stoppedDone containerRunning task).1) ∧
    AgentModel.agent_shutdown false true AgentModel.TaskSt.running =
      ([AgentModel.Ev.setStopped, AgentModel.Ev.deregister, AgentModel.Ev.removeDoneCb,
        AgentModel.Ev.cancelTask, AgentModel.Ev.logDone], none) := by
  constructor
  · intro sd cr task
    cases task <;> cases sd <;> cases cr <;>
      simp [AgentModel.agent_shutdown, AgentModel.await_cancelled_task]
  · rfl

/-- Claim C7.  Evaluates `on_msg` at the failing input: a topic with no class
binding whose payload decodes to an ACL envelope carrying a `sender` field.
No binding matches, so `decode_mqtt_msg` skips `extract_meta` (contradicting
its own docstring, which says in this case the message is assumed to be an
`ACLMessage`): the enqueued metadata is the bare
protocol/topic/qos/retain record and the envelope's `sender` field is not
merged. -/
theorem C7_no_default_envelope_meta :
    firstMatchingClass (Container.mk (some "inbox") [] [] [] []).subscriptions_to_class "top" = none ∧
    on_msg (Container.mk (some "inbox") [] [] [] [])
        (fun _ => some (MVal.acl (MVal.natV 5) [("sender", MetaV.s "x")])) "top" 1 false [0] =
      some (Container.mk (some "inbox") [] [] []
        [(0, MVal.acl (MVal.natV 5) [("sender", MetaV.s "x")],
          [("network_protocol", MetaV.s "mqtt"), ("topic", MetaV.s "top"),
           ("qos", MetaV.n 1), ("retain", MetaV.b false)])]) ∧
    dictGet [("network_protocol", MetaV.s "mqtt"), ("topic", MetaV.s "top"),
             ("qos", MetaV.n 1), ("retain", MetaV.b false)] "sender" = none := by
  refine ⟨rfl, rfl, rfl⟩

/-- Claim C9.  A synchronously rejected broker subscribe is not rolled back:
the topic stays in `additional_subscriptions` mapped to the single subscriber
(and in `subscriptions_to_class` when a class was given) even though the call
returns `False`, so a later `subscribe_for_agent` for the same topic returns
`True` with no broker call at all. -/
theorem C9_failed_subscribe_leaves_residue (c : Container) (aid topic : String) (qos : Nat)
    (cl : ClassV) (hreg : (assocGet c.agents aid).isSome = true)
    (hnew : assocGet c.additional_subscriptions topic = none) :
    ∃ c1, subscribe_for_agent c aid topic qos (some cl) false =
        .ok (c1, [BrokerCall.subscribe topic qos], false) ∧
      assocGet c1.additional_subscriptions topic = some [aid] ∧
      assocGet c1.subscriptions_to_class topic = some cl ∧
      c1.agents = c.agents ∧
      ∀ (aid2 : String) (qos2 : Nat) (br : Bool), (assocGet c1.agents aid2).isSome = true →
        ∃ c2, subscribe_for_agent c1 aid2 topic qos2 none br = .ok (c2, [], true) := by
  have hnone : (assocGet c.agents aid).isNone = false := by
    cases h : assocGet c.agents aid with
    | none => rw [h] at hreg; simp at hreg
    | some _ => simp
  refine ⟨{ c with subscriptions_to_class := assocSet c.subscriptions_to_class topic cl, additional_subscriptions := assocSet c.additional_subscriptions topic [aid] }, ?_, ?_, ?_, rfl, ?_⟩
  · simp [subscribe_for_agent, hnone, hnew]
  · exact assocGet_assocSet_self ..
  · exact assocGet_assocSet_self ..
  · intro aid2 qos2 br hreg2
    simp only at hreg2
    have hnone2 : (assocGet c.agents aid2).isNone = false := by
      cases h : assocGet c.agents aid2 with
      | none => rw [h] at hreg2; simp at hreg2
      | some _ => simp
    simp only [subscribe_for_agent, hnone2, assocGet_assocSet_self, Bool.false_eq_true,
      if_false]
    exact ⟨_, rfl⟩

theorem assocGet_map_filter (l : List (String × List String)) (aid k : String) :
    assocGet (l.map (fun p => (p.1, p.2.filter (fun x => x ≠ aid)))) k
      = (assocGet l k).map (fun v => v.filter (fun x => x ≠ aid)) := by
  induction l with
  | nil => simp [assocGet]
  | cons p rest ih =>
    by_cases h : p.1 = k
    · simp [assocGet, h]
    · simp [assocGet, h]
      simpa [decide_not] using ih

theorem assocGet_filter_of_none {α : Type} (l : List (String × α)) (p : String × α → Bool)
    (k : String) (h : assocGet l k = none) : assocGet (l.filter p) k = none := by
  induction l with
  | nil => simp [assocGet]
  | cons q rest ih =>
    by_cases hq : q.1 = k
    · simp [assocGet, hq] at h
    · simp only [assocGet, hq, if_neg] at h
      by_cases hp : p q
      · simp [List.filter_cons, hp, assocGet, hq, ih h]
      · simp [List.filter_cons, hp, ih h]

/-- Counterexample to claim C8: `subscribe_for_agent` does not guard against
the container's own inbox address being used as the topic pattern — the call
succeeds and inserts the inbox address as a key of
`additional_subscriptions`, so the invariant is not preserved for every topic
pattern. -/
theorem C8_counterexample :
    subscribe_for_agent (Container.mk (some "agentA/inbox") [("a0", [])] [] [] [])
        "a0" "agentA/inbox" 0 none true =
      .ok (Container.mk (some "agentA/inbox") [("a0", [])] [("agentA/inbox", ["a0"])] [] [],
           [BrokerCall.subscribe "agentA/inbox" 0], true) ∧
    assocGet (Container.mk (some "agentA/inbox") [("a0", [])] [("agentA/inbox", ["a0"])] [] []).additional_subscriptions
        "agentA/inbox" = some ["a0"] := by
  exact ⟨rfl, rfl⟩

/-- Claim C8, amended: the inbox address stays absent from the
additional-subscriptions map under `subscribe_for_agent` for every topic
pattern other than the inbox address itself (the code has no guard for that
one pattern: see the counterexample), and under `deregister_agent`
unconditionally. -/
theorem C8_inbox_addr_not_key_preserved (c : Container) (aid topic : String) (qos : Nat)
    (cls : Option ClassV) (br : Bool) (a : String)
    (ha : c.addr = some a)
    (hinv : assocGet c.additional_subscriptions a = none)
    (hne : topic ≠ a) :
    (match subscribe_for_agent c aid topic qos cls br with
     | .ok (c1, _, _) => c1.addr = c.addr ∧ assocGet c1.additional_subscriptions a = none
     | .error _ => True) ∧
    ((deregister_agent c aid).1.addr = some a ∧
      assocGet (deregister_agent c aid).1.additional_subscriptions a = none) := by
  have hne' : a ≠ topic := Ne.symm hne
  constructor
  · by_cases hn : (assocGet c.agents aid).isNone
    · simp [subscribe_for_agent, hn]
    · simp only [Bool.not_eq_true] at hn
      cases cls with
      | none =>
        cases hadd : assocGet c.additional_subscriptions topic with
        | some aids =>
          simp only [subscribe_for_agent, hn, hadd, Bool.false_eq_true, if_false]
          exact ⟨by trivial, by rw [assocGet_assocSet_ne _ _ _ _ hne']; exact hinv⟩
        | none =>
          cases br <;>
            simp only [subscribe_for_agent, hn, hadd, Bool.false_eq_true, if_false, if_true] <;>
            exact ⟨by trivial, by rw [assocGet_assocSet_ne _ _ _ _ hne']; exact hinv⟩
      | some cl =>
        cases hadd : assocGet c.additional_subscriptions topic with
        | some aids =>
          simp only [subscribe_for_agent, hn, hadd, Bool.false_eq_true, if_false]
          exact ⟨by trivial, by rw [assocGet_assocSet_ne _ _ _ _ hne']; exact hinv⟩
        | none =>
          cases br <;>
            simp only [subscribe_for_agent, hn, hadd, Bool.false_eq_true, if_false, if_true] <;>
            exact ⟨by trivial, by rw [assocGet_assocSet_ne _ _ _ _ hne']; exact hinv⟩
  · refine ⟨ha, ?_⟩
    have h1 : assocGet (c.additional_subscriptions.map
        (fun p => (p.1, p.2.filter (fun x => x ≠ aid)))) a = none := by
      rw [assocGet_map_filter, hinv]; rfl
    simp only [deregister_agent]
    exact assocGet_filter_of_none _ _ _ h1

/-- Claim C4.  With the inbox address set (a nonempty string), sending to that
exact address without a truthy `retain` option short-circuits: the message is
envelope-split and enqueued into the container's own intake queue with
priority 0 and no broker call is issued; with `retain` truthy, or with a
different destination, the message is codec-encoded and handed to the broker
`publish` call instead. -/
theorem C4_self_message_short_circuit (c : Container) (encode : MVal → List Nat)
    (content : MVal) (ra : String) (rid : Option String) (ca : Option Bool)
    (am mk : Option Meta) (kw : Meta) (a : String)
    (ha : c.addr = some a) (hane : a ≠ "") :
    (ra = a → ((dictGet kw "retain").getD (MetaV.b false)).truthy = false →
      send_message c encode content ra rid ca am mk kw =
        ({ c with inbox := c.inbox ++
            [(0, (splitIfAble (send_payload content ra rid ca am) (self_meta a kw)).1,
                 (splitIfAble (send_payload content ra rid ca am) (self_meta a kw)).2)] },
         [], true)) ∧
    (ra = a → ((dictGet kw "retain").getD (MetaV.b false)).truthy = true →
      send_message c encode content ra rid ca am mk kw =
        (c, [BrokerCall.publish ra (encode (send_payload content ra rid ca am))], true)) ∧
    (ra ≠ a →
      send_message c encode content ra rid ca am mk kw =
        (c, [BrokerCall.publish ra (encode (send_payload content ra rid ca am))], true)) := by
  refine ⟨?_, ?_, ?_⟩
  · intro hra hret
    subst hra
    simp [send_message, ha, pyTruthyStrOpt, hane, hret]
  · intro hra hret
    subst hra
    simp [send_message, ha, pyTruthyStrOpt, hane, hret]
  · intro hra
    simp [send_message, ha, pyTruthyStrOpt, hane, hra]

/-- Witness for C4 at a concrete input: a container with inbox address
`inbox`, destination `inbox`, empty keyword options. -/
theorem C4_self_message_short_circuit_witness :
    (Container.mk (some "inbox") [] [] [] []).addr = some "inbox" ∧ "inbox" ≠ "" ∧
    send_message (Container.mk (some "inbox") [] [] [] []) (fun _ => []) (MVal.natV 3)
        "inbox" none none none none [] =
      ({ Container.mk (some "inbox") [] [] [] [] with inbox :=
          (Container.mk (some "inbox") [] [] [] []).inbox ++
            [(0, (splitIfAble (send_payload (MVal.natV 3) "inbox" none none none)
                    (self_meta "inbox" [])).1,
                 (splitIfAble (send_payload (MVal.natV 3) "inbox" none none none)
                    (self_meta "inbox" [])).2)] },
       [], true) := by
  refine ⟨rfl, by decide, ?_⟩
  exact (C4_self_message_short_circuit (Container.mk (some "inbox") [] [] [] [])
    (fun _ => []) (MVal.natV 3) "inbox" none none none none [] "inbox" rfl
    (by decide)).1 rfl rfl

/-- Claim C10.  The deprecated `mqtt_kwargs` parameter never influences
routing: since the `**kwargs` dict is never `None`, the line
`actual_mqtt_kwargs = mqtt_kwargs if kwargs is None else kwargs` always picks
`kwargs` — `send_message` is invariant in `mqtt_kwargs`, and a self-addressed
send with `mqtt_kwargs = {retain: True}` but no `retain` key in `kwargs` is
still delivered locally with no broker call. -/
theorem C10_mqtt_kwargs_ignored (c : Container) (encode : MVal → List Nat) (content : MVal)
    (ra : String) (rid : Option String) (ca : Option Bool) (am : Option Meta) (kw : Meta)
    (a : String) (ha : c.addr = some a) (hane : a ≠ "") (hra : ra = a)
    (hkw : dictGet kw "retain" = none) :
    (∀ mk1 mk2 : Option Meta,
      send_message c encode content ra rid ca am mk1 kw =
        send_message c encode content ra rid ca am mk2 kw) ∧
    send_message c encode content ra rid ca am (some [("retain", MetaV.b true)]) kw =
      ({ c with inbox := c.inbox ++
          [(0, (splitIfAble (send_payload content ra rid ca am) (self_meta a kw)).1,
               (splitIfAble (send_payload content ra rid ca am) (self_meta a kw)).2)] },
       [], true) := by
  constructor
  · intro mk1 mk2
    rfl
  · subst hra
    simp [send_message, ha, pyTruthyStrOpt, hane, hkw, MetaV.truthy]

/-- Witness for C8's amended preservation theorem at a concrete container. -/
theorem C8_inbox_addr_not_key_preserved_witness :
    (Container.mk (some "inbox") [("a0", [])] [("t", ["a0"])] [] []).addr = some "inbox" ∧
    assocGet (Container.mk (some "inbox") [("a0", [])] [("t", ["a0"])] [] []).additional_subscriptions "inbox" = none ∧
    "t" ≠ "inbox" ∧
    ((match subscribe_for_agent (Container.mk (some "inbox") [("a0", [])] [("t", ["a0"])] [] [])
          "a0" "t" 0 none true with
      | .ok (c1, _, _) =>
          c1.addr = (Container.mk (some "inbox") [("a0", [])] [("t", ["a0"])] [] []).addr ∧
          assocGet c1.additional_subscriptions "inbox" = none
      | .error _ => True) ∧
     ((deregister_agent (Container.mk (some "inbox") [("a0", [])] [("t", ["a0"])] [] []) "a0").1.addr = some "inbox" ∧
      assocGet (deregister_agent (Container.mk (some "inbox") [("a0", [])] [("t", ["a0"])] [] []) "a0").1.additional_subscriptions "inbox" = none)) := by
  refine ⟨rfl, rfl, by decide, ?_⟩
  exact C8_inbox_addr_not_key_preserved (Container.mk (some "inbox") [("a0", [])] [("t", ["a0"])] [] [])
    "a0" "t" 0 none true "inbox" rfl rfl (by decide)

/-- Witness for C9 at a concrete container with two registered agents. -/
theorem C9_failed_subscribe_leaves_residue_witness :
    (assocGet (Container.mk (some "inbox") [("a0", []), ("a1", [])] [] [] []).agents "a0").isSome = true ∧
    assocGet (Container.mk (some "inbox") [("a0", []), ("a1", [])] [] [] []).additional_subscriptions "t/x" = none ∧
    (∃ c1, subscribe_for_agent (Container.mk (some "inbox") [("a0", []), ("a1", [])] [] [] [])
          "a0" "t/x" 1 (some ClassV.otherClass) false =
        .ok (c1, [BrokerCall.subscribe "t/x" 1], false) ∧
      assocGet c1.additional_subscriptions "t/x" = some ["a0"] ∧
      assocGet c1.subscriptions_to_class "t/x" = some ClassV.otherClass ∧
      c1.agents = (Container.mk (some "inbox") [("a0", []), ("a1", [])] [] [] []).agents ∧
      ∀ (aid2 : String) (qos2 : Nat) (br : Bool), (assocGet c1.agents aid2).isSome = true →
        ∃ c2, subscribe_for_agent c1 aid2 "t/x" qos2 none br = .ok (c2, [], true)) := by
  refine ⟨rfl, rfl, ?_⟩
  exact C9_failed_subscribe_leaves_residue (Container.mk (some "inbox") [("a0", []), ("a1", [])] [] [] [])
    "a0" "t/x" 1 ClassV.otherClass rfl rfl

/-- Witness for C10 at a concrete container. -/
theorem C10_mqtt_kwargs_ignored_witness :
    (Container.mk (some "inbox") [] [] [] []).addr = some "inbox" ∧ "inbox" ≠ "" ∧
    dictGet [("qos", MetaV.n 2)] "retain" = none ∧
    ((∀ mk1 mk2 : Option Meta,
      send_message (Container.mk (some "inbox") [] [] [] []) (fun _ => []) (MVal.natV 7)
          "inbox" none none none mk1 [("qos", MetaV.n 2)] =
        send_message (Container.mk (some "inbox") [] [] [] []) (fun _ => []) (MVal.natV 7)
          "inbox" none none none mk2 [("qos", MetaV.n 2)]) ∧
     send_message (Container.mk (some "inbox") [] [] [] []) (fun _ => []) (MVal.natV 7)
         "inbox" none none none (some [("retain", MetaV.b true)]) [("qos", MetaV.n 2)] =
       ({ Container.mk (some "inbox") [] [] [] [] with inbox :=
           (Container.mk (some "inbox") [] [] [] []).inbox ++
             [(0, (splitIfAble (send_payload (MVal.natV 7) "inbox" none none none)
                     (self_meta "inbox" [("qos", MetaV.n 2)])).1,
                  (splitIfAble (send_payload (MVal.natV 7) "inbox" none none none)
                     (self_meta "inbox" [("qos", MetaV.n 2)])).2)] },
        [], true)) := by
  refine ⟨rfl, by decide, rfl, ?_⟩
  exact C10_mqtt_kwargs_ignored (Container.mk (some "inbox") [] [] [] []) (fun _ => [])
    (MVal.natV 7) "inbox" none none none [("qos", MetaV.n 2)] "inbox" rfl (by decide) rfl rfl

/-! Reference-counting machinery for claim C2. -/

theorem isNone_false_of_isSome {α : Type} (o : Option α) (h : o.isSome = true) :
    o.isNone = false := by
  cases o with
  | none => simp at h
  | some _ => simp

/-- `subscribe_for_agent` on a fresh topic with an accepting broker: one
broker subscribe call, the topic mapped to the singleton set. -/
theorem subscribe_for_agent_new (c : Container) (aid topic : String) (qos : Nat)
    (hreg : (assocGet c.agents aid).isSome = true)
    (hnew : assocGet c.additional_subscriptions topic = none) :
    subscribe_for_agent c aid topic qos none true =
      .ok ({ c with additional_subscriptions := assocSet c.additional_subscriptions topic [aid] },
           [BrokerCall.subscribe topic qos], true) := by
  simp [subscribe_for_agent, isNone_false_of_isSome _ hreg, hnew]

/-- `subscribe_for_agent` on an already-subscribed topic: no broker call, the
agent id is added to the topic's set. -/
theorem subscribe_for_agent_old (c : Container) (aid topic : String) (qos : Nat)
    (l : List String) (br : Bool) (hreg : (assocGet c.agents aid).isSome = true)
    (hold : assocGet c.additional_subscriptions topic = some l) :
    subscribe_for_agent c aid topic qos none br =
      .ok ({ c with additional_subscriptions := assocSet c.additional_subscriptions topic (setAdd l aid) },
           [], true) := by
  simp [subscribe_for_agent, isNone_false_of_isSome _ hreg, hold]

theorem filter_key_cons_pos {α : Type} (q : String × α) (rest : List (String × α)) (P : String)
    (hq : q.1 = P) :
    (q :: rest).filter (fun p => p.1 = P) = q :: rest.filter (fun p => p.1 = P) := by
  simp [List.filter_cons, hq]

theorem filter_key_cons_neg {α : Type} (q : String × α) (rest : List (String × α)) (P : String)
    (hq : ¬q.1 = P) :
    (q :: rest).filter (fun p => p.1 = P) = rest.filter (fun p => p.1 = P) := by
  simp [List.filter_cons, hq]

theorem assocGet_of_filter_nil {α : Type} (l : List (String × α)) (P : String)
    (h : l.filter (fun p => p.1 = P) = []) : assocGet l P = none := by
  induction l with
  | nil => rfl
  | cons q rest ih =>
    by_cases hq : q.1 = P
    · rw [filter_key_cons_pos q rest P hq] at h
      exact absurd h (List.cons_ne_nil _ _)
    · rw [filter_key_cons_neg q rest P hq] at h
      simp [assocGet, hq, ih h]

theorem assocGet_of_filter_single {α : Type} (l : List (String × α)) (P : String) (w : α)
    (h : l.filter (fun p => p.1 = P) = [(P, w)]) : assocGet l P = some w := by
  induction l with
  | nil => simp at h
  | cons q rest ih =>
    by_cases hq : q.1 = P
    · rw [filter_key_cons_pos q rest P hq] at h
      injection h with h1 h2
      subst h1
      simp [assocGet]
    · rw [filter_key_cons_neg q rest P hq] at h
      simp [assocGet, hq, ih h]

theorem filter_key_assocSet_absent {α : Type} (l : List (String × α)) (P : String) (v : α)
    (h : l.filter (fun p => p.1 = P) = []) :
    (assocSet l P v).filter (fun p => p.1 = P) = [(P, v)] := by
  induction l with
  | nil => simp [assocSet]
  | cons q rest ih =>
    by_cases hq : q.1 = P
    · rw [filter_key_cons_pos q rest P hq] at h
      exact absurd h (List.cons_ne_nil _ _)
    · rw [filter_key_cons_neg q rest P hq] at h
      have hstep : assocSet (q :: rest) P v = q :: assocSet rest P v := by simp [assocSet, hq]
      rw [hstep, filter_key_cons_neg q _ P hq]
      exact ih h

theorem filter_key_assocSet_present {α : Type} (l : List (String × α)) (P : String) (v w : α)
    (h : l.filter (fun p => p.1 = P) = [(P, w)]) :
    (assocSet l P v).filter (fun p => p.1 = P) = [(P, v)] := by
  induction l with
  | nil => simp at h
  | cons q rest ih =>
    by_cases hq : q.1 = P
    · rw [filter_key_cons_pos q rest P hq] at h
      injection h with h1 h2
      have hstep : assocSet (q :: rest) P v = (P, v) :: rest := by simp [assocSet, hq]
      rw [hstep, filter_key_cons_pos (P, v) rest P rfl, h2]
    · rw [filter_key_cons_neg q rest P hq] at h
      have hstep : assocSet (q :: rest) P v = q :: assocSet rest P v := by simp [assocSet, hq]
      rw [hstep, filter_key_cons_neg q _ P hq]
      exact ih h

/-- Later subscribers to an existing topic: no broker calls, every call
returns `True`, the agent ids accumulate in order. -/
theorem subscribe_run_later (P : String) (qos : Nat) (rest : List String) :
    ∀ (c : Container) (l : List String),
      subEntries c P = [(P, l)] →
      (∀ x ∈ rest, (assocGet c.agents x).isSome = true) →
      (∀ x ∈ rest, x ∉ l) → rest.Nodup →
      ∃ c2, subscribe_run P qos c rest = some (c2, [], List.replicate rest.length true) ∧
        subEntries c2 P = [(P, l ++ rest)] ∧ c2.agents = c.agents := by
  induction rest with
  | nil =>
    intro c l hent _ _ _
    exact ⟨c, rfl, by simpa using hent, rfl⟩
  | cons x rest ih =>
    intro c l hent hreg hnot hnd
    have hold : assocGet c.additional_subscriptions P = some l :=
      assocGet_of_filter_single _ _ _ hent
    have hx : x ∉ l := hnot x (List.mem_cons_self x rest)
    have hadd : setAdd l x = l ++ [x] := by simp [setAdd, hx]
    have hsub := subscribe_for_agent_old c x P qos l true (hreg x (List.mem_cons_self x rest)) hold
    have hent' : subEntries { c with additional_subscriptions := assocSet c.additional_subscriptions P (setAdd l x) } P = [(P, l ++ [x])] := by
      simpa [subEntries, hadd] using
        filter_key_assocSet_present c.additional_subscriptions P (setAdd l x) l hent
    obtain ⟨c2, hrun, hent2, hagents⟩ := ih _ (l ++ [x]) hent'
      (fun y hy => hreg y (List.mem_cons_of_mem x hy))
      (fun y hy => by
        rcases List.nodup_cons.mp hnd with ⟨hxr, _⟩
        have hyx : y ≠ x := fun hyx => hxr (hyx ▸ hy)
        simp [hnot y (List.mem_cons_of_mem x hy), hyx])
      (List.nodup_cons.mp hnd).2
    refine ⟨c2, ?_, by simpa using hent2, hagents⟩
    simp only [subscribe_run, hsub, hrun]
    simp [List.replicate_succ]

/-- Subscribe half of the reference-counting property: N agents subscribing
in sequence to one fresh pattern trigger exactly one broker subscribe call,
every call returns `True`, and the pattern ends up mapped to all N ids. -/
theorem subscribe_run_refcount (c0 : Container) (P : String) (qos : Nat) (aids : List String)
    (hent : subEntries c0 P = [])
    (hreg : ∀ x ∈ aids, (assocGet c0.agents x).isSome = true)
    (hnd : aids.Nodup) (hne : aids ≠ []) :
    ∃ c1, subscribe_run P qos c0 aids =
        some (c1, [BrokerCall.subscribe P qos], List.replicate aids.length true) ∧
      subEntries c1 P = [(P, aids)] ∧ c1.agents = c0.agents := by
  cases aids with
  | nil => exact absurd rfl hne
  | cons a rest =>
    have hnew : assocGet c0.additional_subscriptions P = none := assocGet_of_filter_nil _ _ hent
    have hsub := subscribe_for_agent_new c0 a P qos (hreg a (List.mem_cons_self a rest)) hnew
    have hent' : subEntries { c0 with additional_subscriptions := assocSet c0.additional_subscriptions P [a] } P = [(P, [a])] := by
      simpa [subEntries] using filter_key_assocSet_absent c0.additional_subscriptions P [a] hent
    obtain ⟨c1, hrun, hent1, hagents⟩ := subscribe_run_later P qos rest _ [a] hent'
      (fun y hy => hreg y (List.mem_cons_of_mem a hy))
      (fun y hy => by
        rcases List.nodup_cons.mp hnd with ⟨har, _⟩
        have : y ≠ a := fun hya => har (hya ▸ hy)
        simp [this])
      (List.nodup_cons.mp hnd).2
    refine ⟨c1, ?_, by simpa using hent1, hagents⟩
    simp only [subscribe_run, hsub, hrun]
    simp [List.replicate_succ]

theorem filter_swap {α : Type} (p q : α → Bool) (l : List α) :
    (l.filter p).filter q = (l.filter q).filter p := by
  induction l with
  | nil => rfl
  | cons a rest ih =>
    by_cases hp : p a <;> by_cases hq : q a <;> simp [List.filter_cons, hp, hq, ih]

theorem filter_key_map (l : List (String × List String)) (aid P : String) :
    (l.map (fun p => (p.1, p.2.filter (fun x => x ≠ aid)))).filter (fun p => p.1 = P)
      = (l.filter (fun p => p.1 = P)).map (fun p => (p.1, p.2.filter (fun x => x ≠ aid))) := by
  induction l with
  | nil => rfl
  | cons q rest ih =>
    by_cases hq : q.1 = P
    · simp only [List.map_cons]
      rw [filter_key_cons_pos (q.1, q.2.filter (fun x => x ≠ aid))
            (rest.map (fun p => (p.1, p.2.filter (fun x => x ≠ aid)))) P hq,
          filter_key_cons_pos q rest P hq]
      rw [List.map_cons, ih]
    · simp only [List.map_cons]
      rw [filter_key_cons_neg (q.1, q.2.filter (fun x => x ≠ aid))
            (rest.map (fun p => (p.1, p.2.filter (fun x => x ≠ aid)))) P hq,
          filter_key_cons_neg q rest P hq]
      exact ih

theorem filter_unsub_map (ks : List String) (P : String) :
    (ks.map BrokerCall.unsubscribe).filter (fun b => b = BrokerCall.unsubscribe P)
      = (ks.filter (fun k => k = P)).map BrokerCall.unsubscribe := by
  induction ks with
  | nil => rfl
  | cons k rest ih =>
    by_cases hk : k = P
    · simp [List.filter_cons, hk, ih]
    · simp [List.filter_cons, hk, ih]

theorem filter_fst_map_key (l : List (String × List String)) (P : String) :
    (l.map Prod.fst).filter (fun k => k = P) = (l.filter (fun p => p.1 = P)).map Prod.fst := by
  induction l with
  | nil => rfl
  | cons q rest ih =>
    by_cases hq : q.1 = P
    · simp only [List.map_cons]
      rw [filter_key_cons_pos q rest P hq]
      simp [List.filter_cons, hq, ih]
    · simp only [List.map_cons]
      rw [filter_key_cons_neg q rest P hq]
      simp [List.filter_cons, hq, ih]

/-- Effect of one `deregister_agent` call on one tracked pattern: the agent id
is removed from the pattern's set; only when the set becomes empty is the
pattern dropped, and exactly then is a single broker unsubscribe for it
issued. -/
theorem deregister_agent_entries (c : Container) (P aid : String) (l : List String)
    (hent : subEntries c P = [(P, l)]) :
    subEntries (deregister_agent c aid).1 P =
      (if l.filter (fun x => x ≠ aid) = [] then [] else [(P, l.filter (fun x => x ≠ aid))]) ∧
    (deregister_agent c aid).2.filter (fun b => b = BrokerCall.unsubscribe P) =
      (if l.filter (fun x => x ≠ aid) = [] then [BrokerCall.unsubscribe P] else []) := by
  have hu : (c.additional_subscriptions.map
      (fun p => (p.1, p.2.filter (fun x => x ≠ aid)))).filter (fun p => p.1 = P)
      = [(P, l.filter (fun x => x ≠ aid))] := by
    rw [filter_key_map]
    rw [subEntries] at hent
    rw [hent]
    rfl
  constructor
  · show ((c.additional_subscriptions.map (fun p => (p.1, p.2.filter (fun x => x ≠ aid)))).filter
        (fun p => p.2 ≠ [])).filter (fun p => p.1 = P) = _
    rw [filter_swap, hu]
    by_cases hl : l.filter (fun x => x ≠ aid) = []
    · rw [if_pos hl, hl]
      rw [List.filter_cons_of_neg (by simp)]
      rfl
    · rw [if_neg hl]
      rw [List.filter_cons_of_pos (by simpa using hl)]
      rfl
  · show ((((c.additional_subscriptions.map (fun p => (p.1, p.2.filter (fun x => x ≠ aid)))).filter
        (fun p => p.2 = [])).map Prod.fst).map BrokerCall.unsubscribe).filter
        (fun b => b = BrokerCall.unsubscribe P) = _
    rw [filter_unsub_map, filter_fst_map_key, filter_swap, hu]
    by_cases hl : l.filter (fun x => x ≠ aid) = []
    · rw [if_pos hl, hl]
      rw [List.filter_cons_of_pos (by simp)]
      rfl
    · rw [if_neg hl]
      rw [List.filter_cons_of_neg (by simpa using hl)]
      rfl

theorem deregister_run_length (c : Container) (l : List String) :
    (deregister_run c l).2.length = l.length := by
  induction l generalizing c with
  | nil => rfl
  | cons a rest ih => simp [deregister_run, ih]

/-- Deregistration half of the reference-counting property: removing all N
subscribed agents in order issues no unsubscribe for the pattern until the
last agent leaves, and exactly one at that final step. -/
theorem deregister_run_unsub_once (P : String) (aids : List String) :
    ∀ c : Container, subEntries c P = [(P, aids)] → aids ≠ [] → aids.Nodup →
      (deregister_run c aids).2.map (fun cs => cs.filter (fun b => b = BrokerCall.unsubscribe P))
        = List.replicate (aids.length - 1) [] ++ [[BrokerCall.unsubscribe P]] := by
  induction aids with
  | nil => exact fun c _ hne _ => absurd rfl hne
  | cons a rest ih =>
    intro c hent hne hnd
    have hstep := deregister_agent_entries c P a (a :: rest) hent
    have hfa : (a :: rest).filter (fun x => x ≠ a) = rest := by
      rcases List.nodup_cons.mp hnd with ⟨har, _⟩
      rw [List.filter_cons_of_neg (by simp)]
      exact List.filter_eq_self.mpr (fun x hx => by
        have hxa : ¬x = a := fun hxa => har (hxa ▸ hx)
        simpa using hxa)
    rw [hfa] at hstep
    obtain ⟨hent', hcalls⟩ := hstep
    have hunfold : deregister_run c (a :: rest) =
        ((deregister_run (deregister_agent c a).1 rest).1,
         (deregister_agent c a).2 :: (deregister_run (deregister_agent c a).1 rest).2) := rfl
    cases rest with
    | nil =>
      rw [if_pos rfl] at hcalls
      rw [hunfold]
      simp only [List.map_cons]
      rw [hcalls]
      rfl
    | cons b rest2 =>
      have hne2 : (b :: rest2 : List String) ≠ [] := List.cons_ne_nil _ _
      rw [if_neg hne2] at hent' hcalls
      have hrec := ih (deregister_agent c a).1 hent' hne2 (List.nodup_cons.mp hnd).2
      rw [hunfold]
      simp only [List.map_cons]
      rw [hcalls, hrec]
      simp [List.replicate_succ]

/-- Claim C2.  Broker subscriptions are reference-counted per pattern: for a
fresh pattern and N registered distinct agents subscribing in sequence,
exactly one broker subscribe call is issued (by the first call; the rest
return `True` with no broker round-trip), the pattern's set accumulates all N
ids, and when the N agents deregister in the same order, the first N-1 steps
issue no unsubscribe for the pattern while the last issues exactly one. -/
theorem C2_reference_counting (c0 : Container) (P : String) (qos : Nat) (aids : List String)
    (hent : subEntries c0 P = [])
    (hreg : ∀ x ∈ aids, (assocGet c0.agents x).isSome = true)
    (hnd : aids.Nodup) (hne : aids ≠ []) :
    ∃ c1, subscribe_run P qos c0 aids =
        some (c1, [BrokerCall.subscribe P qos], List.replicate aids.length true) ∧
      subEntries c1 P = [(P, aids)] ∧
      (deregister_run c1 aids).2.length = aids.length ∧
      (deregister_run c1 aids).2.map (fun cs => cs.filter (fun b => b = BrokerCall.unsubscribe P))
        = List.replicate (aids.length - 1) [] ++ [[BrokerCall.unsubscribe P]] := by
  obtain ⟨c1, hrun, hent1, _⟩ := subscribe_run_refcount c0 P qos aids hent hreg hnd hne
  exact ⟨c1, hrun, hent1, deregister_run_length c1 aids,
    deregister_run_unsub_once P aids c1 hent1 hne hnd⟩

/-- Witness for C2: two agents `b`, `c` subscribing to the fresh pattern
`sensors/+/temp` and deregistering again. -/
theorem C2_reference_counting_witness :
    subEntries (Container.mk (some "inbox") [("b", []), ("c", [])] [] [] []) "sensors/+/temp" = [] ∧
    (∀ x ∈ ["b", "c"], (assocGet (Container.mk (some "inbox") [("b", []), ("c", [])] [] [] []).agents x).isSome = true) ∧
    (["b", "c"] : List String).Nodup ∧ (["b", "c"] : List String) ≠ [] ∧
    (∃ c1, subscribe_run "sensors/+/temp" 0 (Container.mk (some "inbox") [("b", []), ("c", [])] [] [] []) ["b", "c"] =
        some (c1, [BrokerCall.subscribe "sensors/+/temp" 0], List.replicate (["b", "c"] : List String).length true) ∧
      subEntries c1 "sensors/+/temp" = [("sensors/+/temp", ["b", "c"])] ∧
      (deregister_run c1 ["b", "c"]).2.length = (["b", "c"] : List String).length ∧
      (deregister_run c1 ["b", "c"]).2.map
          (fun cs => cs.filter (fun b => b = BrokerCall.unsubscribe "sensors/+/temp"))
        = List.replicate ((["b", "c"] : List String).length - 1) [] ++ [[BrokerCall.unsubscribe "sensors/+/temp"]]) := by
  refine ⟨rfl, by decide, by decide, by decide, ?_⟩
  exact C2_reference_counting (Container.mk (some "inbox") [("b", []), ("c", [])] [] [] [])
    "sensors/+/temp" 0 ["b", "c"] rfl (by decide) (by decide) (by decide)

/-! Fan-out machinery for claim C3. -/

theorem mem_setAdd (l : List String) (x a : String) :
    a ∈ setAdd l x ↔ a ∈ l ∨ a = x := by
  by_cases h : x ∈ l
  · simp only [setAdd, h, if_pos]
    exact ⟨Or.inl, fun hc => hc.elim id (fun hax => hax ▸ h)⟩
  · simp [setAdd, h]

theorem mem_foldl_setAdd (l2 : List String) :
    ∀ (acc : List String) (a : String), a ∈ l2.foldl setAdd acc ↔ a ∈ acc ∨ a ∈ l2 := by
  induction l2 with
  | nil => simp
  | cons x rest ih =>
    intro acc a
    rw [List.foldl_cons, ih, mem_setAdd]
    simp only [List.mem_cons]
    tauto

theorem nodup_setAdd (l : List String) (x : String) (h : l.Nodup) : (setAdd l x).Nodup := by
  by_cases hx : x ∈ l
  · simpa [setAdd, hx] using h
  · simp only [setAdd, hx, if_neg, not_false_iff]
    simp [List.nodup_append, h, hx]

theorem nodup_foldl_setAdd (l2 : List String) :
    ∀ acc : List String, acc.Nodup → (l2.foldl setAdd acc).Nodup := by
  induction l2 with
  | nil => exact fun acc h => h
  | cons x rest ih => exact fun acc h => ih (setAdd acc x) (nodup_setAdd acc x h)

theorem mem_resolve_recipients (c : Container) (t a : String) :
    a ∈ resolve_recipients c t ↔
      ∃ p ∈ c.additional_subscriptions, topic_matches_sub p.1 t = true ∧ a ∈ p.2 := by
  have haux : ∀ (subs : List (String × List String)) (acc : List String),
      (a ∈ subs.foldl
        (fun acc p => if topic_matches_sub p.1 t then p.2.foldl setAdd acc else acc) acc
        ↔ a ∈ acc ∨ ∃ p ∈ subs, topic_matches_sub p.1 t = true ∧ a ∈ p.2) := by
    intro subs
    induction subs with
    | nil => simp
    | cons p rest ih =>
      intro acc
      rw [List.foldl_cons]
      by_cases hm : topic_matches_sub p.1 t
      · rw [if_pos hm, ih, mem_foldl_setAdd]
        simp only [List.mem_cons, hm]
        constructor
        · rintro ((h | h) | ⟨q, hq, hq2, hq3⟩)
          · exact Or.inl h
          · exact Or.inr ⟨p, Or.inl rfl, hm, h⟩
          · exact Or.inr ⟨q, Or.inr hq, hq2, hq3⟩
        · rintro (h | ⟨q, (rfl | hq), hq2, hq3⟩)
          · exact Or.inl (Or.inl h)
          · exact Or.inl (Or.inr hq3)
          · exact Or.inr ⟨q, hq, hq2, hq3⟩
      · rw [if_neg hm, ih]
        simp only [List.mem_cons]
        constructor
        · rintro (h | ⟨q, hq, hq2, hq3⟩)
          · exact Or.inl h
          · exact Or.inr ⟨q, Or.inr hq, hq2, hq3⟩
        · rintro (h | ⟨q, (rfl | hq), hq2, hq3⟩)
          · exact Or.inl h
          · exact absurd hq2 (by simpa using hm)
          · exact Or.inr ⟨q, hq, hq2, hq3⟩
  simpa [resolve_recipients] using haux c.additional_subscriptions []

theorem nodup_resolve_recipients (c : Container) (t : String) :
    (resolve_recipients c t).Nodup := by
  have haux : ∀ (subs : List (String × List String)) (acc : List String), acc.Nodup →
      (subs.foldl
        (fun acc p => if topic_matches_sub p.1 t then p.2.foldl setAdd acc else acc) acc).Nodup := by
    intro subs
    induction subs with
    | nil => exact fun acc h => h
    | cons p rest ih =>
      intro acc h
      rw [List.foldl_cons]
      by_cases hm : topic_matches_sub p.1 t
      · rw [if_pos hm]
        exact ih _ (nodup_foldl_setAdd p.2 acc h)
      · rw [if_neg hm]
        exact ih _ h
  exact haux c.additional_subscriptions [] List.nodup_nil

theorem assocGet_putList (l : List (String × List InboxItem)) (r x : String) (it : InboxItem) :
    assocGet (l.map (fun p => if p.1 = r then (p.1, p.2 ++ [it]) else p)) x =
      (if x = r then (assocGet l x).map (fun ib => ib ++ [it]) else assocGet l x) := by
  induction l with
  | nil => by_cases hx : x = r <;> simp [assocGet, hx]
  | cons q rest ih =>
    by_cases hq : q.1 = r
    · by_cases hqx : q.1 = x
      · have hx : x = r := hqx ▸ hq
        simp [assocGet, hq, hqx, hx]
      · have hxr : ¬x = r := fun hxr => hqx (hxr ▸ hq)
        simp only [List.map_cons, if_pos hq, assocGet, hqx, if_neg, ih, hxr,
          Bool.false_eq_true]
        simp [hqx, hxr]
    · by_cases hqx : q.1 = x
      · have hxr : ¬x = r := fun hxr => hq (hqx ▸ hxr ▸ rfl)
        simp [assocGet, hq, hqx, hxr]
      · simp only [List.map_cons, if_neg hq, assocGet, hqx, ih]
        simp [hqx]

theorem assocGet_foldl_putInbox (recs : List String) :
    ∀ (c : Container) (x : String) (it : InboxItem), recs.Nodup →
      assocGet ((recs.foldl (fun acc r => putInbox acc r it) c).agents) x =
        (if x ∈ recs then (assocGet c.agents x).map (fun ib => ib ++ [it])
         else assocGet c.agents x) := by
  induction recs with
  | nil => intro c x it _; simp
  | cons r rest ih =>
    intro c x it hnd
    rw [List.foldl_cons, ih (putInbox c r it) x it (List.nodup_cons.mp hnd).2]
    have hput : assocGet (putInbox c r it).agents x =
        (if x = r then (assocGet c.agents x).map (fun ib => ib ++ [it])
         else assocGet c.agents x) := assocGet_putList c.agents r x it
    by_cases hmem : x ∈ rest
    · have hxr : ¬x = r := fun h => (List.nodup_cons.mp hnd).1 (h ▸ hmem)
      rw [if_pos hmem, if_pos (List.mem_cons_of_mem r hmem), hput, if_neg hxr]
    · rw [if_neg hmem, hput]
      by_cases hxr : x = r
      · rw [if_pos hxr, if_pos (by simp [hxr])]
      · rw [if_neg hxr, if_neg (by simp [hxr, hmem])]

/-- Claim C3.  For an inbound message whose topic is not the container's inbox
address, the recipients are exactly the union of the agent-id sets of every
additional subscription whose wildcard pattern matches the topic; with no
match the message is dropped with a warning and no inbox changes; otherwise
the same `(priority, content, meta)` tuple (after the envelope split) is
appended exactly once to the inbox of every agent in the union and to no
other inbox. -/
theorem C3_wildcard_fanout (c : Container) (priority : Nat) (content : MVal) (meta : Meta)
    (t : String)
    (ht : dictGet meta "topic" = some (MetaV.s t))
    (hni : c.addr ≠ some t)
    (hreg : ∀ a ∈ resolve_recipients c t, (assocGet c.agents a).isSome = true) :
    (∀ a, a ∈ resolve_recipients c t ↔
      ∃ p ∈ c.additional_subscriptions, topic_matches_sub p.1 t = true ∧ a ∈ p.2) ∧
    (resolve_recipients c t = [] → handle_msg c priority content meta = .droppedWarn c) ∧
    (resolve_recipients c t ≠ [] →
      ∃ c', handle_msg c priority content meta = .delivered c' ∧
        ∀ x, assocGet c'.agents x =
          (if x ∈ resolve_recipients c t
           then (assocGet c.agents x).map (fun ib => ib ++
             [(priority, (splitIfAble content meta).1, (splitIfAble content meta).2)])
           else assocGet c.agents x)) := by
  have haddr : (match c.addr with | some a => decide (t = a) | none => false) = false := by
    cases hca : c.addr with
    | none => rfl
    | some a =>
      have hta : ¬t = a := fun h => hni (by rw [hca, h])
      simp [hta]
  refine ⟨fun a => mem_resolve_recipients c t a, ?_, ?_⟩
  · intro h0
    simp only [handle_msg, ht, haddr, Bool.false_eq_true, if_false, h0]
    simp
  · intro hne
    have hall : (resolve_recipients c t).all (fun r => (assocGet c.agents r).isSome) = true :=
      List.all_eq_true.mpr (fun r hr => hreg r hr)
    simp only [handle_msg, ht, haddr, Bool.false_eq_true, if_false, if_neg hne, hall, if_pos,
      if_true]
    refine ⟨_, rfl, ?_⟩
    intro x
    exact assocGet_foldl_putInbox (resolve_recipients c t) c x
      (priority, (splitIfAble content meta).1, (splitIfAble content meta).2)
      (nodup_resolve_recipients c t)

/-- Witness for C3: agents `b` and `c` subscribed to `sensors/+/temp`, an
inbound message on `sensors/room1/temp`. -/
theorem C3_wildcard_fanout_witness :
    dictGet [("topic", MetaV.s "sensors/room1/temp")] "topic" =
      some (MetaV.s "sensors/room1/temp") ∧
    (Container.mk (some "agentA/inbox") [("b", []), ("c", [])] [("sensors/+/temp", ["b", "c"])] [] []).addr ≠
      some "sensors/room1/temp" ∧
    (∀ a ∈ resolve_recipients (Container.mk (some "agentA/inbox") [("b", []), ("c", [])] [("sensors/+/temp", ["b", "c"])] [] []) "sensors/room1/temp",
      (assocGet (Container.mk (some "agentA/inbox") [("b", []), ("c", [])] [("sensors/+/temp", ["b", "c"])] [] []).agents a).isSome = true) ∧
    (resolve_recipients (Container.mk (some "agentA/inbox") [("b", []), ("c", [])] [("sensors/+/temp", ["b", "c"])] [] []) "sensors/room1/temp" ≠ [] →
      ∃ c', handle_msg (Container.mk (some "agentA/inbox") [("b", []), ("c", [])] [("sensors/+/temp", ["b", "c"])] [] [])
          1 (MVal.natV 7) [("topic", MetaV.s "sensors/room1/temp")] = .delivered c' ∧
        ∀ x, assocGet c'.agents x =
          (if x ∈ resolve_recipients (Container.mk (some "agentA/inbox") [("b", []), ("c", [])] [("sensors/+/temp", ["b", "c"])] [] []) "sensors/room1/temp"
           then (assocGet (Container.mk (some "agentA/inbox") [("b", []), ("c", [])] [("sensors/+/temp", ["b", "c"])] [] []).agents x).map
             (fun ib => ib ++ [(1, (splitIfAble (MVal.natV 7) [("topic", MetaV.s "sensors/room1/temp")]).1,
               (splitIfAble (MVal.natV 7) [("topic", MetaV.s "sensors/room1/temp")]).2)])
           else assocGet (Container.mk (some "agentA/inbox") [("b", []), ("c", [])] [("sensors/+/temp", ["b", "c"])] [] []).agents x)) := by
  refine ⟨rfl, by decide, by decide, ?_⟩
  exact (C3_wildcard_fanout (Container.mk (some "agentA/inbox") [("b", []), ("c", [])] [("sensors/+/temp", ["b", "c"])] [] [])
    1 (MVal.natV 7) [("topic", MetaV.s "sensors/room1/temp")] "sensors/room1/temp"
    rfl (by decide) (by decide)).2.2

/-- Claim C6.  An exception escaping the user handler terminates that agent's
consumer loop at the offending message (exactly the earlier messages were
handled, later ones are never dispatched), `raise_exceptions` re-raises the
exception into the surrounding runtime's fault channel, and in a multi-agent
system each agent's loop outcome is a function of its own handler and inbox
alone — one agent's fault cannot change another's entry. -/
theorem C6_handler_fault_isolated (h : AgentModel.Handler) (pre post : List InboxItem)
    (p : Nat) (cnt : MVal) (m : Meta) (e : Nat)
    (hpre : ∀ it ∈ pre, h it.2.1 (dictSet it.2.2 "priority" (MetaV.n it.1)) = .ok ())
    (hbad : h cnt (dictSet m "priority" (MetaV.n p)) = .error e) :
    AgentModel.check_inbox h (pre ++ (p, cnt, m) :: post) = (pre, .fault e) ∧
    AgentModel.raise_exceptions (.fault e) = some e ∧
    (∀ (handlers : String → AgentModel.Handler) (sys : List (String × List InboxItem))
       (f : String),
      assocGet (AgentModel.system_run handlers sys) f =
        (assocGet sys f).map (fun ib => AgentModel.check_inbox (handlers f) ib)) := by
  refine ⟨?_, rfl, ?_⟩
  · induction pre with
    | nil => simp [AgentModel.check_inbox, hbad]
    | cons it rest ih =>
      obtain ⟨q, cq, mq⟩ := it
      have hq := hpre (q, cq, mq) (List.mem_cons_self _ _)
      have hrest := ih (fun x hx => hpre x (List.mem_cons_of_mem _ hx))
      simp only [List.cons_append, AgentModel.check_inbox, hq]
      rw [show rest.append ((p, cnt, m) :: post) = rest ++ (p, cnt, m) :: post from rfl, hrest]
  · intro handlers sys f
    exact assocGet_map_snd (fun aid ib => AgentModel.check_inbox (handlers aid) ib) sys f

/-- Witness for C6: a handler that fails on content `natV 0` with code 3, one
good message before it, one undispatched message after it. -/
theorem C6_handler_fault_isolated_witness :
    (∀ it ∈ [((1 : Nat), MVal.natV 5, ([] : Meta))],
      (fun v (_ : Meta) => match v with
        | MVal.natV 0 => (Except.error 3 : Except Nat Unit)
        | _ => Except.ok ()) it.2.1 (dictSet it.2.2 "priority" (MetaV.n it.1)) = Except.ok ()) ∧
    (fun v (_ : Meta) => match v with
      | MVal.natV 0 => (Except.error 3 : Except Nat Unit)
      | _ => Except.ok ()) (MVal.natV 0) (dictSet [] "priority" (MetaV.n 2)) = Except.error 3 ∧
    AgentModel.check_inbox
        (fun v (_ : Meta) => match v with
          | MVal.natV 0 => (Except.error 3 : Except Nat Unit)
          | _ => Except.ok ())
        ([((1 : Nat), MVal.natV 5, ([] : Meta))] ++ (2, MVal.natV 0, []) :: [(3, MVal.natV 9, [])]) =
      ([(1, MVal.natV 5, [])], .fault 3) ∧
    AgentModel.raise_exceptions (.fault 3) = some 3 := by
  have hpre : ∀ it ∈ [((1 : Nat), MVal.natV 5, ([] : Meta))],
      (fun v (_ : Meta) => match v with
        | MVal.natV 0 => (Except.error 3 : Except Nat Unit)
        | _ => Except.ok ()) it.2.1 (dictSet it.2.2 "priority" (MetaV.n it.1)) = Except.ok () := by
    intro it hit
    rw [List.mem_singleton] at hit
    subst hit
    rfl
  refine ⟨hpre, rfl, ?_, rfl⟩
  exact (C6_handler_fault_isolated
    (fun v (_ : Meta) => match v with
      | MVal.natV 0 => (Except.error 3 : Except Nat Unit)
      | _ => Except.ok ())
    [((1 : Nat), MVal.natV 5, ([] : Meta))] [(3, MVal.natV 9, [])] 2 (MVal.natV 0) [] 3
    hpre rfl).1

/-! List helpers for the pending-subscription step machine (claim C1). -/

theorem get?_set_self_bool (l : List Bool) :
    ∀ (f : Nat) (v w : Bool), l.get? f = some w → (l.set f v).get? f = some v := by
  induction l with
  | nil => intro f v w hw; simp at hw
  | cons a t ih =>
    intro f v w hw
    cases f with
    | zero => rfl
    | succ n => exact ih n v w hw

theorem get?_set_ne_bool (l : List Bool) :
    ∀ (f g : Nat) (v : Bool), f ≠ g → (l.set f v).get? g = l.get? g := by
  induction l with
  | nil => intro f g v _; simp
  | cons a t ih =>
    intro f g v hfg
    cases f with
    | zero =>
      cases g with
      | zero => exact absurd rfl hfg
      | succ n => rfl
    | succ n =>
      cases g with
      | zero => rfl
      | succ n2 => exact ih n n2 v (fun hh => hfg (by rw [hh]))

theorem count_false_append (l : List Bool) :
    ((l ++ [false]).filter (fun b => b = false)).length
      = (l.filter (fun b => b = false)).length + 1 := by
  simp [List.filter_append]

theorem count_false_of_all_true (l : List Bool) (h : ∀ b ∈ l, b = true) :
    l.filter (fun b => b = false) = [] :=
  List.filter_eq_nil_iff.mpr (fun b hb => by simp [h b hb])

theorem count_false_set_true (l : List Bool) :
    ∀ f, l.get? f = some false →
      ((l.set f true).filter (fun b => b = false)).length + 1
        = (l.filter (fun b => b = false)).length := by
  induction l with
  | nil => intro f hf; simp at hf
  | cons a t ih =>
    intro f hf
    cases f with
    | zero =>
      injection hf with hf
      subst hf
      simp [List.filter_cons]
    | succ n =>
      have hih := ih n hf
      show ((a :: t.set n true).filter (fun b => b = false)).length + 1
        = ((a :: t).filter (fun b => b = false)).length
      rw [List.filter_cons, List.filter_cons]
      by_cases ha : (decide (a = false)) = true
      · rw [if_pos ha, if_pos ha]
        simp only [List.length_cons]
        omega
      · rw [if_neg ha, if_neg ha]
        omega

theorem get?_of_all_true (l : List Bool) (h : ∀ b ∈ l, b = true) (f : Nat)
    (hf : f < l.length) : l.get? f = some true := by
  rw [List.get?_eq_get hf]
  exact congrArg some (h _ (List.get_mem l f hf))

/-- Counterexample to claim C1: with two concurrent `subscribe_for_agent`
calls for distinct new topics, the state in which both coroutines are
suspended is reachable; it has two unresolved pending-subscription futures
(the claim allows at most one), and from it the first coroutine's awaited
future (index 0) is never resolved in any later state — `on_sub` only ever
resolves the future currently stored in `pending_sub_request`, which the
second call overwrote. -/
theorem C1_counterexample :
    SubMachine.Reachable "t1" "t2" SubMachine.init SubMachine.badState ∧
    SubMachine.unresolvedCount SubMachine.badState = 2 ∧
    (∀ s, SubMachine.Reachable "t1" "t2" SubMachine.badState s →
      s.pc1 = SubMachine.PC.awaiting 0 ∧ s.futures.get? 0 = some false) := by
  refine ⟨?_, by decide, ?_⟩
  · have step1 : SubMachine.Step "t1" "t2" SubMachine.init
        ⟨["t1"], [false], some 0, 1, SubMachine.PC.awaiting 0, SubMachine.PC.start⟩ :=
      SubMachine.Step.start1_new SubMachine.init rfl (by decide)
    have step2 : SubMachine.Step "t1" "t2"
        ⟨["t1"], [false], some 0, 1, SubMachine.PC.awaiting 0, SubMachine.PC.start⟩
        SubMachine.badState :=
      SubMachine.Step.start2_new _ rfl (by decide)
    exact Relation.ReflTransGen.head step1
      (Relation.ReflTransGen.head step2 Relation.ReflTransGen.refl)
  · have hpres : ∀ s s', SubMachine.Step "t1" "t2" s s' →
        (s.pc1 = SubMachine.PC.awaiting 0 ∧ s.pc2 ≠ SubMachine.PC.start ∧
         s.pending = some 1 ∧ s.futures.get? 0 = some false) →
        (s'.pc1 = SubMachine.PC.awaiting 0 ∧ s'.pc2 ≠ SubMachine.PC.start ∧
         s'.pending = some 1 ∧ s'.futures.get? 0 = some false) := by
      intro s s' hstep hQ
      obtain ⟨hpc1, hpc2, hpend, hf0⟩ := hQ
      cases hstep with
      | start1_new h hn => exact absurd (h.symm.trans hpc1) (by simp)
      | start1_old h ho => exact absurd (h.symm.trans hpc1) (by simp)
      | start2_new h hn => exact absurd h hpc2
      | start2_old h ho => exact absurd h hpc2
      | ack f hp hf ha =>
        have hf1 : f = 1 := Option.some.inj (hp.symm.trans hpend)
        subst hf1
        exact ⟨hpc1, hpc2, hpend, by
          rw [get?_set_ne_bool s.futures 1 0 true (by decide)]; exact hf0⟩
      | finish1 f h hf =>
        have hf00 : f = 0 := by
          have := h.symm.trans hpc1
          injection this
        subst hf00
        exact absurd (hf.symm.trans hf0) (by simp)
      | finish2 f h hf => exact ⟨hpc1, by simp, hpend, hf0⟩
    intro s hs
    have hQ : s.pc1 = SubMachine.PC.awaiting 0 ∧ s.pc2 ≠ SubMachine.PC.start ∧
        s.pending = some 1 ∧ s.futures.get? 0 = some false := by
      induction hs with
      | refl => exact ⟨rfl, by decide, rfl, rfl⟩
      | tail hab hbc ih => exact hpres _ _ hbc ih
    exact ⟨hQ.1, hQ.2.2.2⟩

/-- Claim C1, amended: under the serialized protocol the specification
demands — a new-topic subscribe call is only started while every previously
created pending-subscription future is resolved — every reachable state has
at most one unresolved future, and a coroutine awaiting a still-unresolved
future always awaits exactly the future stored in `pending_sub_request`, the
one the broker acknowledgement resolves.  (The unguarded code violates this:
see the counterexample.) -/
theorem C1_serialized (t1 t2 : String) (s : SubMachine.St)
    (h : SubMachine.SReachable t1 t2 SubMachine.init s) :
    SubMachine.unresolvedCount s ≤ 1 ∧
    (∀ f, (s.pc1 = SubMachine.PC.awaiting f ∨ s.pc2 = SubMachine.PC.awaiting f) →
      s.futures.get? f = some false → s.pending = some f) := by
  have hInv : SubMachine.unresolvedCount s ≤ 1 ∧
      (∀ f, s.pending = some f → f < s.futures.length) ∧
      (∀ f, s.pc1 = SubMachine.PC.awaiting f →
        (s.futures.get? f = some true ∨ s.pending = some f)) ∧
      (∀ f, s.pc2 = SubMachine.PC.awaiting f →
        (s.futures.get? f = some true ∨ s.pending = some f)) := by
    induction h with
    | refl =>
      refine ⟨by decide, ?_, ?_, ?_⟩ <;> intro f hf <;> simp [SubMachine.init] at hf
    | tail hab hbc ih =>
      obtain ⟨ihc, ihp, ih1, ih2⟩ := ih
      cases hbc with
      | start1_new hpc hn hser =>
        refine ⟨?_, ?_, ?_, ?_⟩
        · show SubMachine.unresolvedCount _ ≤ 1
          simp only [SubMachine.unresolvedCount]
          rw [count_false_append, count_false_of_all_true _ hser]
          simp
        · intro f hf
          simp only [Option.some.injEq] at hf
          simp [List.length_append, ← hf]
        · intro f hf
          simp only [SubMachine.PC.awaiting.injEq] at hf
          exact Or.inr (by simp [hf])
        · intro f hf
          rcases ih2 f hf with htrue | hpendf
          · obtain ⟨hlt, _⟩ := List.get?_eq_some.mp htrue
            exact Or.inl (by rw [List.get?_append hlt]; exact htrue)
          · have hlt := ihp f hpendf
            exact Or.inl (by
              rw [List.get?_append hlt]
              exact get?_of_all_true _ hser f hlt)
      | start1_old hpc hold =>
        exact ⟨ihc, ihp, fun f hf => by simp at hf, ih2⟩
      | start2_new hpc hn hser =>
        refine ⟨?_, ?_, ?_, ?_⟩
        · show SubMachine.unresolvedCount _ ≤ 1
          simp only [SubMachine.unresolvedCount]
          rw [count_false_append, count_false_of_all_true _ hser]
          simp
        · intro f hf
          simp only [Option.some.injEq] at hf
          simp [List.length_append, ← hf]
        · intro f hf
          rcases ih1 f hf with htrue | hpendf
          · obtain ⟨hlt, _⟩ := List.get?_eq_some.mp htrue
            exact Or.inl (by rw [List.get?_append hlt]; exact htrue)
          · have hlt := ihp f hpendf
            exact Or.inl (by
              rw [List.get?_append hlt]
              exact get?_of_all_true _ hser f hlt)
        · intro f hf
          simp only [SubMachine.PC.awaiting.injEq] at hf
          exact Or.inr (by simp [hf])
      | start2_old hpc hold =>
        exact ⟨ihc, ihp, ih1, fun f hf => by simp at hf⟩
      | ack f hp hf ha =>
        refine ⟨?_, ?_, ?_, ?_⟩
        · simp only [SubMachine.unresolvedCount] at ihc ⊢
          have hcount := count_false_set_true _ f hf
          omega
        · intro g hg
          rw [List.length_set]
          exact ihp g hg
        · intro g hg
          rcases ih1 g hg with htrue | hpendg
          · by_cases hgf : g = f
            · subst hgf
              exact absurd (hf.symm.trans htrue) (by simp)
            · exact Or.inl (by
                rw [get?_set_ne_bool _ f g true (fun hh => hgf hh.symm)]
                exact htrue)
          · have hgf : g = f := Option.some.inj (hpendg.symm.trans hp)
            subst hgf
            exact Or.inl (get?_set_self_bool _ g true false hf)
        · intro g hg
          rcases ih2 g hg with htrue | hpendg
          · by_cases hgf : g = f
            · subst hgf
              exact absurd (hf.symm.trans htrue) (by simp)
            · exact Or.inl (by
                rw [get?_set_ne_bool _ f g true (fun hh => hgf hh.symm)]
                exact htrue)
          · have hgf : g = f := Option.some.inj (hpendg.symm.trans hp)
            subst hgf
            exact Or.inl (get?_set_self_bool _ g true false hf)
      | finish1 f hpc hf =>
        exact ⟨ihc, ihp, fun g hg => by simp at hg, ih2⟩
      | finish2 f hpc hf =>
        exact ⟨ihc, ihp, ih1, fun g hg => by simp at hg⟩
  refine ⟨hInv.1, ?_⟩
  intro f hpc hfalse
  rcases hpc with hpc | hpc
  · rcases hInv.2.2.1 f hpc with htrue | hpend
    · exact absurd (htrue.symm.trans hfalse) (by simp)
    · exact hpend
  · rcases hInv.2.2.2 f hpc with htrue | hpend
    · exact absurd (htrue.symm.trans hfalse) (by simp)
    · exact hpend

/-- Witness for the amended C1 at the serialized one-step state: one new-topic
subscribe started from the initial state (where every future is trivially
resolved). -/
theorem C1_serialized_witness :
    SubMachine.SReachable "a" "b" SubMachine.init
      ⟨["a"], [false], some 0, 1, SubMachine.PC.awaiting 0, SubMachine.PC.start⟩ ∧
    (SubMachine.unresolvedCount
        ⟨["a"], [false], some 0, 1, SubMachine.PC.awaiting 0, SubMachine.PC.start⟩ ≤ 1 ∧
     (∀ f, ((SubMachine.St.mk ["a"] [false] (some 0) 1
              (SubMachine.PC.awaiting 0) SubMachine.PC.start).pc1 = SubMachine.PC.awaiting f ∨
            (SubMachine.St.mk ["a"] [false] (some 0) 1
              (SubMachine.PC.awaiting 0) SubMachine.PC.start).pc2 = SubMachine.PC.awaiting f) →
       (SubMachine.St.mk ["a"] [false] (some 0) 1
         (SubMachine.PC.awaiting 0) SubMachine.PC.start).futures.get? f = some false →
       (SubMachine.St.mk ["a"] [false] (some 0) 1
         (SubMachine.PC.awaiting 0) SubMachine.PC.start).pending = some f)) := by
  have hstep : SubMachine.SStep "a" "b" SubMachine.init
      ⟨["a"], [false], some 0, 1, SubMachine.PC.awaiting 0, SubMachine.PC.start⟩ :=
    SubMachine.SStep.start1_new SubMachine.init rfl (by decide)
      (fun b hb => absurd hb (List.not_mem_nil b))
  exact ⟨Relation.ReflTransGen.single hstep,
    C1_serialized "a" "b" _ (Relation.ReflTransGen.single hstep)⟩

end Mango

